import Mathlib

set_option maxHeartbeats 1000000
set_option maxRecDepth 4000

/-!
Shallow embedding of `src/UsefulMacros/SmartGCode.js`.

The ACE editor document is modelled as a list of lines (`List String`);
the editor primitives `doc.getLine`, `doc.replace` and `doc.insertFullLines`
become pure list operations.  A JS number produced by `Number(...)` on a
regex capture is modelled by `JSVal`: either a rational or `NaN`
(`Number` of a capture such as `"1.2.3"` that matches the character class
but is not a well-formed numeral).  A JS variable that may hold
`undefined` is modelled as an `Option`.
-/

/-- JS number value: `NaN` or an exact rational. -/
inductive JSVal where
  | nan : JSVal
  | num (q : ℚ) : JSVal
deriving DecidableEq, Repr

/-- JS comparison `a < b` on possibly-undefined numbers:
`undefined` or `NaN` on either side compares false. -/
def ojlt : Option JSVal → Option JSVal → Bool
  | some (JSVal.num a), some (JSVal.num b) => decide (a < b)
  | _, _ => false

/-- JS comparison `a >= b` on possibly-undefined numbers:
`undefined` or `NaN` on either side compares false. -/
def ojge : Option JSVal → Option JSVal → Bool
  | some (JSVal.num a), some (JSVal.num b) => decide (b ≤ a)
  | _, _ => false

/-- Boolean list-prefix test (the character-level meaning of JS
`String.prototype.startsWith`). -/
def isPre : List Char → List Char → Bool
  | [], _ => true
  | _ :: _, [] => false
  | a :: as, b :: bs => a == b && isPre as bs

/-- Boolean substring test (the character-level meaning of JS
`String.prototype.indexOf(pat) != -1`). -/
def hasSub (pat : List Char) : List Char → Bool
  | [] => pat.isEmpty
  | s@(_ :: rest) => isPre pat s || hasSub pat rest

/-- JS `line.startsWith(p)`. -/
def jsStartsWith (l p : String) : Bool := isPre p.data l.data

/-- The block-start marker prefix checked at SmartGCode.js:45 and :72. -/
def WHEN_MARK : String := "(When using Fusion 360 for Personal Use"

/-- The done-marker prefix checked at SmartGCode.js:51. -/
def OPT_MARK : String := "(OPTIMIZED: When using Fusion 360 for Personal Use"

/-- `line.startsWith("(When using Fusion 360 for Personal Use")`. -/
def isWhenLine (l : String) : Bool := isPre WHEN_MARK.data l.data

/-- `line.startsWith("(OPTIMIZED: When using Fusion 360 for Personal Use")`. -/
def isOptLine (l : String) : Bool := isPre OPT_MARK.data l.data

/-- `line.startsWith("(")` — the comment test at SmartGCode.js:76. -/
def isCommentLine (l : String) : Bool := isPre "(".data l.data

/-- `line.startsWith("(T")` — the tool-comment test at SmartGCode.js:23. -/
def isToolLine (l : String) : Bool := isPre "(T".data l.data

/-- `line.indexOf("M3") != -1` — the spindle-start test at SmartGCode.js:81. -/
def hasM3sub (l : String) : Bool := hasSub "M3".data l.data

/-- Value of a digit string (the integer part of JS `Number`). -/
def digitsToNat (ds : List Char) : Nat :=
  ds.foldl (fun n c => n * 10 + (c.toNat - 48)) 0

/-- Character class `[\d\.]` used by the Z/F capture groups. -/
def isDigitDot (c : Char) : Bool := c.isDigit || c == '.'

/-- JS `Number` applied to an optional minus sign followed by a nonempty
run of digits and dots: a well-formed numeral (at most one dot, at least
one digit) yields its exact value, anything else yields `NaN`. -/
def jsNumber (neg : Bool) (s : List Char) : JSVal :=
  let ip := s.takeWhile Char.isDigit
  let rest := s.drop ip.length
  match rest with
  | [] =>
    if ip.isEmpty then JSVal.nan
    else JSVal.num (if neg then -(digitsToNat ip : ℚ) else (digitsToNat ip : ℚ))
  | c :: frac =>
    if c == '.' && frac.all Char.isDigit && !(ip.isEmpty && frac.isEmpty) then
      let q : ℚ := (digitsToNat ip : ℚ) + (digitsToNat frac : ℚ) / (10 : ℚ) ^ frac.length
      JSVal.num (if neg then -q else q)
    else JSVal.nan

/-- Attempt to match `-?[\d\.]+` at the current position and convert the
capture with `Number`; `none` when the character class cannot match. -/
def numTail : List Char → Option JSVal
  | '-' :: rest =>
    let run := rest.takeWhile isDigitDot
    if run.isEmpty then none else some (jsNumber true run)
  | s =>
    let run := s.takeWhile isDigitDot
    if run.isEmpty then none else some (jsNumber false run)

/-- Attempt to match `[\d\.]+` (no sign) at the current position. -/
def fTail (s : List Char) : Option JSVal :=
  let run := s.takeWhile isDigitDot
  if run.isEmpty then none else some (jsNumber false run)

/-- First match of `/Z(-?[\d\.]+)/` in the line, converted with `Number`
(SmartGCode.js:95-96). -/
def scanZ : List Char → Option JSVal
  | [] => none
  | 'Z' :: rest =>
    match numTail rest with
    | some v => some v
    | none => scanZ rest
  | _ :: rest => scanZ rest

/-- First match of `/F([\d\.]+)/` in the line, converted with `Number`
(SmartGCode.js:99-100). -/
def scanF : List Char → Option JSVal
  | [] => none
  | 'F' :: rest =>
    match fTail rest with
    | some v => some v
    | none => scanF rest
  | _ :: rest => scanF rest

/-- Match of `/^G(\d+)/`, converted with `Number` (SmartGCode.js:91-92). -/
def parseG (l : String) : Option Nat :=
  match l.data with
  | 'G' :: rest =>
    let ds := rest.takeWhile Char.isDigit
    if ds.isEmpty then none else some (digitsToNat ds)
  | _ => none

/-- The Z word of a line, `none` when the pattern does not match. -/
def parseZ (l : String) : Option JSVal := scanZ l.data

/-- The F word of a line, `none` when the pattern does not match. -/
def parseF (l : String) : Option JSVal := scanF l.data

/-- `if (x != undefined) { cur = x; }` — overwrite when a value was found. -/
def ostick {α : Type} (new old : Option α) : Option α :=
  match new with
  | some v => some v
  | none => old

/-- Rewrite-engine state (SmartGCode.js:62-67). -/
structure OState where
  curZ : Option JSVal
  curG : Option Nat
  curF : Option JSVal
  feedZ : Option JSVal
  restoreF : Bool
  optimized : Bool
deriving DecidableEq, Repr

/-- The initial state of the second loop (all trackers `undefined`). -/
def initState : OState :=
  { curZ := none, curG := none, curF := none, feedZ := none,
    restoreF := false, optimized := false }

/-- The sticky/modal updates of SmartGCode.js:91-101: each tracker is
overwritten by the value found on this line, if any. -/
def updateSticky (st : OState) (l : String) : OState :=
  { st with
    curG := ostick (parseG l) st.curG,
    curZ := ostick (parseZ l) st.curZ,
    curF := ostick (parseF l) st.curF }

/-- Condition of SmartGCode.js:103 (`lastZ` is `curZ` before this line). -/
def rule1cond (st1 : OState) (lastZ : Option JSVal) : Bool :=
  st1.curG == some 1 && st1.feedZ.isNone && st1.curZ.isSome && lastZ.isSome
    && ojlt st1.curZ lastZ

/-- Condition of SmartGCode.js:108. -/
def rule2cond (st1 : OState) (lastZ : Option JSVal) : Bool :=
  st1.curG == some 1 && st1.feedZ.isSome && ojge st1.curZ st1.feedZ
    && ojge st1.curZ lastZ

/-- Promotion of a line to a rapid move (SmartGCode.js:112-119):
replace a leading `G<digits>` token by `G0`, or prepend `"G0 "`. -/
def promoteLine (l : String) : String :=
  match l.data with
  | [] => "G0 " ++ l
  | c :: rest =>
    if c == 'G' then
      let ds := rest.takeWhile Char.isDigit
      if ds.isEmpty then "G0 " ++ l
      else String.mk ('G' :: '0' :: rest.drop ds.length)
    else "G0 " ++ l

/-- JS `toFixed(0)` on a number: round to the nearest integer, ties
towards `+∞` — that is `⌊q + 1/2⌋`, written here on the numerator and
denominator so that it evaluates by machine arithmetic (see
`jsToFixed0_eq_floor`); `NaN` prints as `"NaN"`. -/
def jsToFixed0 : JSVal → String
  | JSVal.nan => "NaN"
  | JSVal.num q => toString (Int.fdiv (2 * q.num + q.den) (2 * q.den))

/-- The feed-restore line `"G1 F" + curF.toFixed(0)` (SmartGCode.js:126). -/
def restoreLine (f : JSVal) : String := "G1 F" ++ jsToFixed0 f

/-- The dwell line `"G4 P" + SPINDLE_START_DELAY.toFixed(0)` (SmartGCode.js:83). -/
def dwellLine (delay : Nat) : String := "G4 P" ++ toString delay

/-- The `if/else if` chain of SmartGCode.js:103-123 (rules 1 and 2 and
the no-rule fall-through), applied to one line: returns the emitted text
of the line and the next state.  The feed-restore branch (rule 3) is
handled by `normStep`. -/
def applyRules (st : OState) (l : String) : List String × OState :=
  let lastZ := st.curZ
  let st1 := updateSticky st l
  if rule1cond st1 lastZ then ([l], { st1 with feedZ := st1.curZ })
  else if rule2cond st1 lastZ then
    ([promoteLine l], { st1 with restoreF := true, optimized := true })
  else ([l], st1)

/-- Processing of one non-comment, non-skipped line (SmartGCode.js:89-129).
When rule 3 fires (neither rule 1 nor rule 2, and `restoreF` is set), the
source inserts the feed-restore line *before* the current line without
adjusting `lineIdx`, so the `for` loop examines the current line a second
time (with `restoreF` now cleared, so rule 3 cannot fire on that second
examination); that second examination is the inner `applyRules` call.
`none` models the `TypeError` thrown by `curF.toFixed(0)` when `curF`
is `undefined`. -/
def normStep (st : OState) (l : String) : Option (List String × OState) :=
  let lastZ := st.curZ
  let st1 := updateSticky st l
  if rule1cond st1 lastZ || rule2cond st1 lastZ || !st1.restoreF then
    some (applyRules st l)
  else
    match st1.curF with
    | none => none
    | some f =>
      let p := applyRules { st1 with restoreF := false } l
      some (restoreLine f :: p.1, p.2)

/-- Result of a run: the document after the call, whether the internal
`optimized` flag was set, and whether a JS exception escaped. -/
structure ORes where
  doc : List String
  optimized : Bool
  crashed : Bool
deriving DecidableEq, Repr

/-- The second loop of `OptimizeGCode` (SmartGCode.js:69-130). -/
def runLines (delay : Nat) : OState → List String → ORes
  | st, [] => { doc := [], optimized := st.optimized, crashed := false }
  | st, l :: rest =>
    let stR := if isWhenLine l then { st with feedZ := none } else st
    if isCommentLine l then
      let r := runLines delay stR rest
      { doc := l :: r.doc, optimized := r.optimized, crashed := r.crashed }
    else if 0 < delay ∧ hasM3sub l then
      let r := runLines delay stR rest
      { doc := l :: dwellLine delay :: r.doc,
        optimized := r.optimized, crashed := r.crashed }
    else
      match normStep stR l with
      | none => { doc := l :: rest, optimized := stR.optimized, crashed := true }
      | some (ls, st2) =>
        let r := runLines delay st2 rest
        { doc := ls ++ r.doc, optimized := r.optimized, crashed := r.crashed }

/-- The `doc.replace` at SmartGCode.js:47: insert `"OPTIMIZED: "` at
column 1 of the marker line. -/
def markLine (l : String) : String :=
  String.mk (l.data.take 1 ++ "OPTIMIZED: ".data ++ l.data.drop 1)

/-- The first loop of `OptimizeGCode` (SmartGCode.js:42-60): scan for the
first line carrying either marker prefix; mark it and continue
(`some` of the updated document), or abort (`none`, covering both the
done-marker early return and the no-marker case). -/
def markPhase : List String → Option (List String)
  | [] => none
  | l :: ls =>
    if isWhenLine l then some (markLine l :: ls)
    else if isOptLine l then none
    else (markPhase ls).map (fun d => l :: d)

/-- The source constant `SPINDLE_START_DELAY` (SmartGCode.js:8). -/
def SPINDLE_START_DELAY : Nat := 3

/-- `OptimizeGCode` (SmartGCode.js:37-136), parameterized by the
spindle-start delay constant. -/
def OptimizeGCode (delay : Nat) (doc : List String) : ORes :=
  match markPhase doc with
  | none => { doc := doc, optimized := false, crashed := false }
  | some d => runLines delay initState d

/-- First occurrence index of a pattern as a sublist. -/
def findSubIdx (pat : List Char) : List Char → Option Nat
  | [] => if isPre pat [] then some 0 else none
  | s@(_ :: rest) =>
    if isPre pat s then some 0 else (findSubIdx pat rest).map (fun n => n + 1)

/-- Index of the last occurrence of a character. -/
def lastIdxOf (c : Char) : List Char → Option Nat
  | [] => none
  | a :: as =>
    match lastIdxOf c as with
    | some k => some (k + 1)
    | none => if a == c then some 0 else none

/-- JS `line.replace(/T\d+ /, "")` (SmartGCode.js:25, first replace):
remove the first occurrence of a `T`, a maximal nonempty digit run, and
a space. -/
def stripTnum : List Char → List Char
  | [] => []
  | c :: cs =>
    if c == 'T' then
      let ds := cs.takeWhile Char.isDigit
      if !ds.isEmpty && (cs.drop ds.length).head? == some ' ' then
        cs.drop (ds.length + 1)
      else c :: stripTnum cs
    else c :: stripTnum cs

/-- JS `line.replace` with the pattern space,`ZMIN`,`.*`,`-`
(SmartGCode.js:25, second replace): from the first `" ZMIN"` occurrence,
the greedy `.*` extends to the last `'-'` of the string; remove that
span (or nothing if no `'-'` follows). -/
def stripZmin (s : List Char) : List Char :=
  match findSubIdx " ZMIN".data s with
  | none => s
  | some i =>
    match lastIdxOf '-' (s.drop (i + 5)) with
    | none => s
    | some k => s.take i ++ (s.drop (i + 5)).drop (k + 1)

/-- First match of `/ZMIN=(-?[\d\.]+)/`, converted with `Number`
(SmartGCode.js:26-27). -/
def scanZmin : List Char → Option JSVal
  | [] => none
  | s@(_ :: rest) =>
    if isPre "ZMIN=".data s then
      match numTail (s.drop 5) with
      | some v => some v
      | none => scanZmin rest
    else scanZmin rest

/-- The record returned by `GetToolInfo` (SmartGCode.js:28). -/
structure ToolInfo where
  toolName : String
  minZ : Option JSVal
deriving DecidableEq, Repr

/-- `GetToolInfo` (SmartGCode.js:15-33): first line starting with `"(T"`,
with the tool name computed by the two replaces and `minZ` by the
`ZMIN=` match. -/
def GetToolInfo : List String → Option ToolInfo
  | [] => none
  | l :: ls =>
    if isToolLine l then
      some { toolName := String.mk (stripZmin (stripTnum l.data)),
             minZ := scanZmin l.data }
    else GetToolInfo ls

/-- The comment lines of a document, in order. -/
def filterComments (ls : List String) : List String :=
  ls.filter (fun l => isCommentLine l)

/-- Last `some` value produced by `g` over a list, scanning left to right
(the value of the latest line on which the pattern matched). -/
def lastSome {α : Type} (g : String → Option α) : List String → Option α
  | [] => none
  | l :: ls =>
    match lastSome g ls with
    | some v => some v
    | none => g l

/-- Modelled from the claim's wording (C7): the "explicitly-specified
value" of a numeric field on a line — the parse result when it is a
well-formed number, with malformed numeric text counting as absent. -/
def specValueOf (parse : String → Option JSVal) (l : String) : Option JSVal :=
  match parse l with
  | some (JSVal.num q) => some (JSVal.num q)
  | _ => none

/-- Modelled from the claim's wording (C8): the first non-space character
of a line. -/
def firstNonSpace (l : String) : Option Char :=
  (l.data.dropWhile (fun c => c == ' ')).head?

/-! ### Basic lemmas about the string primitives -/

/-- The integer formula in `jsToFixed0` computes `toFixed(0)` rounding:
nearest integer with ties towards positive infinity. -/
theorem jsToFixed0_eq_floor (q : ℚ) :
    Int.fdiv (2 * q.num + q.den) (2 * q.den) = ⌊q + 1 / 2⌋ := by
  have hq : (q + 1 / 2 : ℚ)
      = ((2 * q.num + (q.den : ℤ) : ℤ) : ℚ) / (((2 * q.den : ℕ) : ℕ) : ℚ) := by
    rw [eq_div_iff (by positivity)]
    push_cast
    nth_rewrite 1 [← Rat.num_div_den q]
    have hd : (q.den : ℚ) ≠ 0 := by positivity
    field_simp
    ring
  rw [hq, Rat.floor_intCast_div_natCast]
  rw [Int.fdiv_eq_ediv _ (by positivity)]
  push_cast
  rfl

theorem data_append (a b : String) : (a ++ b).data = a.data ++ b.data := by
  cases a
  cases b
  rfl

theorem isPre_iff (p : List Char) : ∀ l, isPre p l = true ↔ ∃ t, l = p ++ t := by
  induction p with
  | nil =>
    intro l
    simp [isPre]
  | cons a as ih =>
    intro l
    cases l with
    | nil =>
      simp [isPre]
    | cons b bs =>
      simp only [isPre, Bool.and_eq_true, beq_iff_eq, List.cons_append, List.cons.injEq]
      constructor
      · rintro ⟨rfl, h⟩
        obtain ⟨t, rfl⟩ := (ih bs).mp h
        exact ⟨t, rfl, rfl⟩
      · rintro ⟨t, rfl, rfl⟩
        exact ⟨rfl, (ih _).mpr ⟨t, rfl⟩⟩

theorem isPre_trans {P Q l : List Char} (h1 : isPre P Q = true)
    (h2 : isPre Q l = true) : isPre P l = true := by
  obtain ⟨a, rfl⟩ := (isPre_iff _ _).mp h1
  obtain ⟨b, rfl⟩ := (isPre_iff _ _).mp h2
  exact (isPre_iff _ _).mpr ⟨a ++ b, by rw [List.append_assoc]⟩

theorem take_two_of_append (A t : List Char) (h : 2 ≤ A.length) :
    (A ++ t).take 2 = A.take 2 := by
  rw [List.take_append_eq_append_take]
  have h0 : 2 - A.length = 0 := by omega
  rw [h0]
  simp

theorem not_isPre_of_take2 {A B : List Char} (t : List Char) (hA : 2 ≤ A.length)
    (hB : 2 ≤ B.length) (hne : A.take 2 ≠ B.take 2) : isPre A (B ++ t) = false := by
  by_contra hc
  have hc' : isPre A (B ++ t) = true := by
    revert hc
    cases isPre A (B ++ t) <;> simp
  obtain ⟨s, hs⟩ := (isPre_iff _ _).mp hc'
  apply hne
  calc A.take 2 = (A ++ s).take 2 := (take_two_of_append A s hA).symm
    _ = (B ++ t).take 2 := by rw [hs]
    _ = B.take 2 := take_two_of_append B t hB

theorem isPre_false_of_head {A l : List Char} {a b : Char} (hA : A.head? = some a)
    (hl : l.head? = some b) (hab : a ≠ b) : isPre A l = false := by
  cases A with
  | nil => simp at hA
  | cons a0 A' =>
    cases l with
    | nil => simp at hl
    | cons b0 l' =>
      simp only [List.head?] at hA hl
      cases hA
      cases hl
      simp only [isPre, Bool.and_eq_false_iff]
      left
      simp [hab]

/-! ### Marker lemmas -/

theorem comment_of_when {l : String} (h : isWhenLine l = true) :
    isCommentLine l = true := by
  have hpq : isPre "(".data WHEN_MARK.data = true := by decide
  exact isPre_trans hpq h

theorem comment_of_opt {l : String} (h : isOptLine l = true) :
    isCommentLine l = true := by
  have hpq : isPre "(".data OPT_MARK.data = true := by decide
  exact isPre_trans hpq h

theorem not_when_of_opt {l : String} (h : isOptLine l = true) :
    isWhenLine l = false := by
  obtain ⟨t, ht⟩ := (isPre_iff _ _).mp h
  rw [isWhenLine, ht]
  apply not_isPre_of_take2 t
  · decide
  · decide
  · decide

theorem not_opt_of_when {l : String} (h : isWhenLine l = true) :
    isOptLine l = false := by
  obtain ⟨t, ht⟩ := (isPre_iff _ _).mp h
  rw [isOptLine, ht]
  apply not_isPre_of_take2 t
  · decide
  · decide
  · decide

theorem markLine_data {l : String} {t : List Char}
    (ht : l.data = WHEN_MARK.data ++ t) :
    (markLine l).data = OPT_MARK.data ++ t := by
  have hlen : 1 ≤ WHEN_MARK.data.length := by decide
  have htake : l.data.take 1 = ['('] := by
    rw [ht, List.take_append_eq_append_take]
    have h0 : 1 - WHEN_MARK.data.length = 0 := by omega
    rw [h0]
    have h1 : WHEN_MARK.data.take 1 = ['('] := by decide
    simp [h1]
  have hdrop : l.data.drop 1 = WHEN_MARK.data.drop 1 ++ t := by
    rw [ht, List.drop_append_eq_append_drop]
    have h0 : 1 - WHEN_MARK.data.length = 0 := by omega
    rw [h0]
    simp
  have hkey : OPT_MARK.data
      = ('(' : Char) :: ("OPTIMIZED: ".data ++ WHEN_MARK.data.drop 1) := by decide
  rw [markLine]
  show l.data.take 1 ++ "OPTIMIZED: ".data ++ l.data.drop 1
      = OPT_MARK.data ++ t
  rw [htake, hdrop, hkey]
  simp

theorem markLine_isOpt {l : String} (h : isWhenLine l = true) :
    isOptLine (markLine l) = true := by
  obtain ⟨t, ht⟩ := (isPre_iff _ _).mp h
  rw [isOptLine, markLine_data ht]
  exact (isPre_iff _ _).mpr ⟨t, rfl⟩

theorem markLine_not_when {l : String} (h : isWhenLine l = true) :
    isWhenLine (markLine l) = false :=
  not_when_of_opt (markLine_isOpt h)

theorem markLine_comment {l : String} (h : isWhenLine l = true) :
    isCommentLine (markLine l) = true :=
  comment_of_opt (markLine_isOpt h)

/-! ### Heads of lines emitted by the rewrite loop -/

theorem dwellLine_head (delay : Nat) : (dwellLine delay).data.head? = some 'G' := by
  rw [dwellLine, data_append]
  rfl

theorem restoreLine_head (f : JSVal) : (restoreLine f).data.head? = some 'G' := by
  rw [restoreLine, data_append]
  rfl

theorem promoteLine_head (l : String) : (promoteLine l).data.head? = some 'G' := by
  rw [promoteLine]
  rcases hl : l.data with _ | ⟨c, rest⟩
  · rw [data_append]
    rfl
  · by_cases hc : (c == 'G') = true
    · simp only [hc, if_true]
      by_cases hd : (rest.takeWhile Char.isDigit).isEmpty = true
      · simp only [hd, if_true, data_append]
        rfl
      · simp only [hd, if_false]
        rfl
    · simp only [hc, if_false, data_append]
      rfl

theorem no_marks_of_headG {l : String} (h : l.data.head? = some 'G') :
    isCommentLine l = false ∧ isWhenLine l = false ∧ isOptLine l = false := by
  refine ⟨?_, ?_, ?_⟩
  · exact isPre_false_of_head (show "(".data.head? = some '(' by decide) h (by decide)
  · exact isPre_false_of_head
      (show WHEN_MARK.data.head? = some '(' by decide) h (by decide)
  · exact isPre_false_of_head
      (show OPT_MARK.data.head? = some '(' by decide) h (by decide)

theorem not_when_of_not_comment {l : String} (h : isCommentLine l = false) :
    isWhenLine l = false := by
  cases hw : isWhenLine l
  · rfl
  · rw [comment_of_when hw] at h
    cases h

/-! ### Structure of the mark phase -/

theorem markPhase_shape : ∀ (doc d : List String), markPhase doc = some d →
    ∃ pre l post, doc = pre ++ l :: post ∧ d = pre ++ markLine l :: post ∧
      (∀ x ∈ pre, isWhenLine x = false ∧ isOptLine x = false) ∧
      isWhenLine l = true := by
  intro doc
  induction doc with
  | nil =>
    intro d h
    simp [markPhase] at h
  | cons a as ih =>
    intro d h
    cases hw : isWhenLine a with
    | true =>
      refine ⟨[], a, as, by simp, ?_, by simp, hw⟩
      simp only [markPhase, hw, if_true] at h
      simp only [Option.some.injEq] at h
      simp [h.symm]
    | false =>
      cases ho : isOptLine a with
      | true =>
        simp [markPhase, hw, ho] at h
      | false =>
        simp only [markPhase, hw, ho, Bool.false_eq_true, if_false,
          Option.map_eq_some'] at h
        obtain ⟨d', hd', rfl⟩ := h
        obtain ⟨pre, l, post, rfl, rfl, hpre, hl⟩ := ih d' hd'
        refine ⟨a :: pre, l, post, rfl, rfl, ?_, hl⟩
        intro x hx
        rcases List.mem_cons.mp hx with rfl | hx'
        · exact ⟨hw, ho⟩
        · exact hpre x hx'

theorem markPhase_none_of : ∀ (pre : List String) (m : String) (post : List String),
    (∀ x ∈ pre, isWhenLine x = false ∧ isOptLine x = false) →
    isOptLine m = true → markPhase (pre ++ m :: post) = none := by
  intro pre
  induction pre with
  | nil =>
    intro m post _ hm
    rw [List.nil_append, markPhase]
    simp [not_when_of_opt hm, hm]
  | cons x pre ih =>
    intro m post hpre hm
    have hx := hpre x (by simp)
    rw [List.cons_append, markPhase]
    simp only [hx.1, hx.2, Bool.false_eq_true, if_false, Option.map_eq_none']
    exact ih m post (fun y hy => hpre y (by simp [hy])) hm

/-! ### What the second loop emits -/

theorem applyRules_fst (st : OState) (l : String) :
    (applyRules st l).1 = [l] ∨ (applyRules st l).1 = [promoteLine l] := by
  rw [applyRules]
  split
  · left
    rfl
  · split
    · right
      rfl
    · left
      rfl

theorem normStep_emit {st : OState} {l : String} {ls : List String} {st2 : OState}
    (h : normStep st l = some (ls, st2)) :
    ∀ y ∈ ls, y = l ∨ y.data.head? = some 'G' := by
  rw [normStep] at h
  split at h
  · simp only [Option.some.injEq] at h
    have hls : ls = (applyRules st l).1 := by rw [h]
    intro y hy
    rw [hls] at hy
    rcases applyRules_fst st l with ha | ha
    · rw [ha] at hy
      simp only [List.mem_singleton] at hy
      exact Or.inl hy
    · rw [ha] at hy
      simp only [List.mem_singleton] at hy
      exact Or.inr (hy ▸ promoteLine_head l)
  · split at h
    · cases h
    · simp only [Option.some.injEq] at h
      have hls : restoreLine _ :: (applyRules _ l).1 = ls := congrArg Prod.fst h
      intro y hy
      rw [← hls] at hy
      simp only [List.mem_cons] at hy
      rcases hy with rfl | hy'
      · exact Or.inr (restoreLine_head _)
      · rcases applyRules_fst _ l with ha | ha
        · rw [ha] at hy'
          simp only [List.mem_singleton] at hy'
          exact Or.inl hy'
        · rw [ha] at hy'
          simp only [List.mem_singleton] at hy'
          exact Or.inr (hy' ▸ promoteLine_head l)

theorem filterComments_cons_pos {l : String} (ls : List String)
    (h : isCommentLine l = true) :
    filterComments (l :: ls) = l :: filterComments ls := by
  simp [filterComments, List.filter_cons, h]

theorem filterComments_cons_neg {l : String} (ls : List String)
    (h : isCommentLine l = false) :
    filterComments (l :: ls) = filterComments ls := by
  simp [filterComments, List.filter_cons, h]

theorem runLines_filter (delay : Nat) :
    ∀ (rem : List String) (st : OState),
      filterComments (runLines delay st rem).doc = filterComments rem := by
  intro rem
  induction rem with
  | nil =>
    intro st
    rfl
  | cons l rest ih =>
    intro st
    cases hc : isCommentLine l with
    | true =>
      simp only [runLines, hc, if_true]
      rw [filterComments_cons_pos _ hc, filterComments_cons_pos _ hc, ih]
    | false =>
      have hw := not_when_of_not_comment hc
      simp only [runLines, hw, hc, Bool.false_eq_true, if_false]
      by_cases hm : 0 < delay ∧ hasM3sub l = true
      · rw [if_pos hm]
        have hd := (no_marks_of_headG (dwellLine_head delay)).1
        rw [filterComments_cons_neg _ hc, filterComments_cons_neg _ hd,
          filterComments_cons_neg _ hc, ih]
      · rw [if_neg hm]
        rcases hn : normStep st l with _ | ⟨ls, st2⟩
        · rfl
        · have hls : filterComments ls = [] := by
            rw [filterComments, List.filter_eq_nil_iff]
            intro y hy
            rcases normStep_emit hn y hy with rfl | hg
            · simp [hc]
            · simp [(no_marks_of_headG hg).1]
          have happ : filterComments (ls ++ (runLines delay st2 rest).doc)
              = filterComments ls ++ filterComments (runLines delay st2 rest).doc := by
            simp [filterComments, List.filter_append]
          rw [happ, hls, List.nil_append, ih, filterComments_cons_neg _ hc]

theorem runLines_shape (delay : Nat) :
    ∀ (pre : List String) (st : OState) (m : String) (post : List String),
      (∀ x ∈ pre, isWhenLine x = false ∧ isOptLine x = false) →
      isCommentLine m = true → isWhenLine m = false →
      ∃ pre2 rest2,
        (runLines delay st (pre ++ m :: post)).doc = pre2 ++ m :: rest2 ∧
        ∀ x ∈ pre2, isWhenLine x = false ∧ isOptLine x = false := by
  intro pre
  induction pre with
  | nil =>
    intro st m post _ hcm hwm
    refine ⟨[], (runLines delay st post).doc, ?_, by simp⟩
    simp only [List.nil_append, runLines, hwm, Bool.false_eq_true, if_false, hcm,
      if_true]
  | cons x pre ih =>
    intro st m post hpre hcm hwm
    have hx := hpre x (by simp)
    have hpre' : ∀ y ∈ pre, isWhenLine y = false ∧ isOptLine y = false :=
      fun y hy => hpre y (by simp [hy])
    rw [List.cons_append]
    cases hcx : isCommentLine x with
    | true =>
      simp only [runLines, hcx, if_true]
      obtain ⟨p2, r2, hdoc, hp2⟩ :=
        ih (if isWhenLine x = true then { st with feedZ := none } else st)
          m post hpre' hcm hwm
      refine ⟨x :: p2, r2, by simp [hdoc], ?_⟩
      intro y hy
      rcases List.mem_cons.mp hy with rfl | hy'
      · exact hx
      · exact hp2 y hy'
    | false =>
      have hwx := not_when_of_not_comment hcx
      simp only [runLines, hwx, hcx, Bool.false_eq_true, if_false]
      by_cases hm3 : 0 < delay ∧ hasM3sub x = true
      · rw [if_pos hm3]
        obtain ⟨p2, r2, hdoc, hp2⟩ := ih st m post hpre' hcm hwm
        refine ⟨x :: dwellLine delay :: p2, r2, by simp [hdoc], ?_⟩
        intro y hy
        rcases List.mem_cons.mp hy with rfl | hy'
        · exact hx
        · rcases List.mem_cons.mp hy' with rfl | hy''
          · exact ⟨(no_marks_of_headG (dwellLine_head delay)).2.1,
              (no_marks_of_headG (dwellLine_head delay)).2.2⟩
          · exact hp2 y hy''
      · rw [if_neg hm3]
        rcases hn : normStep st x with _ | ⟨ls, st2⟩
        · refine ⟨x :: pre, post, by simp, ?_⟩
          intro y hy
          rcases List.mem_cons.mp hy with rfl | hy'
          · exact hx
          · exact hpre' y hy'
        · obtain ⟨p2, r2, hdoc, hp2⟩ := ih st2 m post hpre' hcm hwm
          refine ⟨ls ++ p2, r2, by simp [hdoc], ?_⟩
          intro y hy
          rcases List.mem_append.mp hy with hy' | hy'
          · rcases normStep_emit hn y hy' with rfl | hg
            · exact hx
            · exact ⟨(no_marks_of_headG hg).2.1, (no_marks_of_headG hg).2.2⟩
          · exact hp2 y hy'

/-! ### Sticky-state helpers -/

theorem ostick_assoc {α : Type} (a b c : Option α) :
    ostick (ostick a b) c = ostick a (ostick b c) := by
  cases a <;> rfl

theorem foldSticky (ls : List String) : ∀ s : OState,
    (ls.foldl updateSticky s).curZ = ostick (lastSome parseZ ls) s.curZ ∧
    (ls.foldl updateSticky s).curG = ostick (lastSome parseG ls) s.curG ∧
    (ls.foldl updateSticky s).curF = ostick (lastSome parseF ls) s.curF := by
  induction ls with
  | nil =>
    intro s
    exact ⟨rfl, rfl, rfl⟩
  | cons l ls ih =>
    intro s
    rw [List.foldl_cons]
    obtain ⟨h1, h2, h3⟩ := ih (updateSticky s l)
    refine ⟨?_, ?_, ?_⟩
    · rw [h1]
      exact (ostick_assoc _ _ _).symm
    · rw [h2]
      exact (ostick_assoc _ _ _).symm
    · rw [h3]
      exact (ostick_assoc _ _ _).symm

/-! ### One-step equations for the second loop -/

theorem runLines_step_dwell (delay : Nat) (st : OState) (l : String)
    (rest : List String) (hc : isCommentLine l = false) (hd : 0 < delay)
    (hm : hasM3sub l = true) :
    runLines delay st (l :: rest)
      = { doc := l :: dwellLine delay :: (runLines delay st rest).doc,
          optimized := (runLines delay st rest).optimized,
          crashed := (runLines delay st rest).crashed } := by
  have hw := not_when_of_not_comment hc
  simp only [runLines, hw, hc, Bool.false_eq_true, if_false]
  rw [if_pos ⟨hd, hm⟩]

theorem runLines_step_normal (delay : Nat) (st : OState) (l : String)
    (rest : List String) (hc : isCommentLine l = false)
    (hm : ¬(0 < delay ∧ hasM3sub l = true)) :
    runLines delay st (l :: rest)
      = match normStep st l with
        | none => { doc := l :: rest, optimized := st.optimized, crashed := true }
        | some (ls, st2) =>
          { doc := ls ++ (runLines delay st2 rest).doc,
            optimized := (runLines delay st2 rest).optimized,
            crashed := (runLines delay st2 rest).crashed } := by
  have hw := not_when_of_not_comment hc
  simp only [runLines, hw, hc, Bool.false_eq_true, if_false]
  rw [if_neg hm]

/-! ### GetToolInfo characterization -/

theorem isToolLine_iff (l : String) :
    isToolLine l = true ↔ l.data.take 2 = ['(', 'T'] := by
  rw [isToolLine]
  constructor
  · intro h
    obtain ⟨t, ht⟩ := (isPre_iff _ _).mp h
    rw [ht, take_two_of_append _ _ (by decide)]
    decide
  · intro h
    refine (isPre_iff _ _).mpr ⟨l.data.drop 2, ?_⟩
    have h2 : "(T".data = ['(', 'T'] := by decide
    rw [h2, ← h, List.take_append_drop]

theorem getToolInfo_none_iff (ls : List String) :
    GetToolInfo ls = none ↔ ∀ l ∈ ls, isToolLine l = false := by
  induction ls with
  | nil =>
    simp [GetToolInfo]
  | cons a as ih =>
    rw [GetToolInfo]
    cases ha : isToolLine a with
    | true =>
      simp [ha]
    | false =>
      simp [ha, ih]

theorem comment_head_iff (l : String) :
    isCommentLine l = true ↔ l.data.head? = some '(' := by
  constructor
  · intro h
    obtain ⟨t, ht⟩ := (isPre_iff _ _).mp h
    rw [ht]
    rfl
  · intro h
    rcases hl : l.data with _ | ⟨c, t⟩
    · rw [hl] at h
      cases h
    · rw [hl] at h
      have hc : c = '(' := by
        simp only [List.head?, Option.some.injEq] at h
        exact h
      rw [isCommentLine, hl, hc]
      simp [isPre]

/-! ### Claim theorems -/

/-- Claim C1: running the rewrite a second time on a program it has
already processed is a no-op — for every program and every delay setting,
running `OptimizeGCode` twice yields a line sequence identical to running
it once (the second run's scan finds the done-marker, or finds no marker
at all, and returns with no changes). -/
theorem c1_rewrite_idempotent (delay : Nat) (doc : List String) :
    (OptimizeGCode delay (OptimizeGCode delay doc).doc).doc
      = (OptimizeGCode delay doc).doc := by
  rcases hm : markPhase doc with _ | d
  · have h1 : OptimizeGCode delay doc
        = { doc := doc, optimized := false, crashed := false } := by
      rw [OptimizeGCode, hm]
    rw [h1]
    show (OptimizeGCode delay doc).doc = doc
    rw [OptimizeGCode, hm]
  · obtain ⟨pre, l, post, hdoc, hd, hpre, hl⟩ := markPhase_shape doc d hm
    subst hd
    obtain ⟨p2, r2, hout, hp2⟩ :=
      runLines_shape delay pre initState (markLine l) post hpre
        (markLine_comment hl) (markLine_not_when hl)
    have h1 : OptimizeGCode delay doc
        = runLines delay initState (pre ++ markLine l :: post) := by
      rw [OptimizeGCode, hm]
    rw [h1, hout]
    have h2 : markPhase (p2 ++ markLine l :: r2) = none :=
      markPhase_none_of p2 _ r2 hp2 (markLine_isOpt hl)
    rw [OptimizeGCode, h2]

/-- Claim C10: every comment line other than the single first block-start
marker line (which receives the `OPTIMIZED: ` prefix) is unchanged by the
rewrite pass: the comment lines of the output are exactly the comment
lines of the input, in order, with at most the first block-start marker
line replaced by its marked version. -/
theorem c10_comments_preserved (delay : Nat) (doc : List String) :
    filterComments (OptimizeGCode delay doc).doc = filterComments doc ∨
    ∃ pre l post, doc = pre ++ l :: post ∧ isWhenLine l = true ∧
      filterComments (OptimizeGCode delay doc).doc
        = filterComments pre ++ markLine l :: filterComments post := by
  rcases hm : markPhase doc with _ | d
  · left
    rw [OptimizeGCode, hm]
  · right
    obtain ⟨pre, l, post, hdoc, hd, hpre, hl⟩ := markPhase_shape doc d hm
    refine ⟨pre, l, post, hdoc, hl, ?_⟩
    have h1 : (OptimizeGCode delay doc).doc = (runLines delay initState d).doc := by
      rw [OptimizeGCode, hm]
    rw [h1, runLines_filter, hd]
    have happ : filterComments (pre ++ markLine l :: post)
        = filterComments pre ++ filterComments (markLine l :: post) := by
      simp [filterComments, List.filter_append]
    rw [happ, filterComments_cons_pos _ (markLine_comment hl)]

/-- Evaluation of `Number("-10.5")` in the model. -/
theorem jsNumber_neg105 :
    jsNumber true ['1', '0', '.', '5'] = JSVal.num (-(21 / 2)) := by
  have h1 : List.takeWhile Char.isDigit ['1', '0', '.', '5'] = ['1', '0'] := rfl
  have h2 : digitsToNat ['1', '0'] = 10 := rfl
  have h3 : digitsToNat ['5'] = 5 := rfl
  have h5 : Char.isDigit '5' = true := rfl
  simp only [jsNumber, h1]
  norm_num [h2, h3, h5]

/-- Claim C2 (counterexample): on the four-line program of the claim, the
fourth line is NOT rewritten to a rapid move — it comes out of the rewrite
unchanged as `G1 Z0 X20`, contradicting the claimed promotion of its
leading `G1` token to `G0`. -/
theorem c2_counterexample :
    (OptimizeGCode 3 ["(When using Fusion 360 for Personal Use...)",
        "G1 Z-5 F100", "G1 Z-5 X10", "G1 Z0 X20"]).doc[3]?
      = some "G1 Z0 X20" ∧ ("G1 Z0 X20" : String) ≠ "G0 Z0 X20" := by
  constructor
  · decide
  · decide

/-- Claim C2 (amended): for the four-line program
`["(When using Fusion 360 for Personal Use...)", "G1 Z-5 F100",
"G1 Z-5 X10", "G1 Z0 X20"]`, one run of the rewrite gives the first line
the `OPTIMIZED: ` marker and leaves the remaining three lines unchanged,
inserting nothing: the program's first Z-bearing line has no previous Z,
so rule 1 never fires, `feedZ` is never set, and no line is promoted. -/
theorem c2_amended :
    OptimizeGCode 3 ["(When using Fusion 360 for Personal Use...)",
        "G1 Z-5 F100", "G1 Z-5 X10", "G1 Z0 X20"]
      = { doc := ["(OPTIMIZED: When using Fusion 360 for Personal Use...)",
            "G1 Z-5 F100", "G1 Z-5 X10", "G1 Z0 X20"],
          optimized := false, crashed := false } := by
  decide

/-- Claim C3 (counterexample): on the program whose only line is
`(T1 Router ZMIN=-10.5)`, `GetToolInfo` returns
`toolName = "(Router10.5)"` — not `"Router"`: the first replace keeps the
leading parenthesis and the second replace, whose pattern must end at a
`'-'`, also keeps the digits and the closing parenthesis. -/
theorem c3_counterexample :
    GetToolInfo ["(T1 Router ZMIN=-10.5)"]
      = some { toolName := "(Router10.5)",
               minZ := some (JSVal.num (-(21 / 2))) } ∧
    ("(Router10.5)" : String) ≠ "Router" := by
  constructor
  · have h : GetToolInfo ["(T1 Router ZMIN=-10.5)"]
        = some { toolName := "(Router10.5)",
                 minZ := some (jsNumber true ['1', '0', '.', '5']) } := rfl
    rw [h, jsNumber_neg105]
  · decide

/-- Claim C3 (amended): `GetToolInfo` on a program whose first `(T` line
is `(T1 Router ZMIN=-10.5)` returns `toolName = "(Router10.5)"` (the two
replaces keep the opening parenthesis, and the trailing-suffix pattern
consumes only up to the last `'-'`, leaving `10.5)`) and
`minZ = -10.5`; on a program with no line beginning with `(T` it returns
the optional-empty not-found result. -/
theorem c3_amended :
    (∀ ls : List String, (∀ l ∈ ls, isToolLine l = false) →
      GetToolInfo ls = none) ∧
    GetToolInfo ["(T1 Router ZMIN=-10.5)"]
      = some { toolName := "(Router10.5)",
               minZ := some (JSVal.num (-(21 / 2))) } := by
  constructor
  · intro ls h
    exact (getToolInfo_none_iff ls).mpr h
  · have h : GetToolInfo ["(T1 Router ZMIN=-10.5)"]
        = some { toolName := "(Router10.5)",
                 minZ := some (jsNumber true ['1', '0', '.', '5']) } := rfl
    rw [h, jsNumber_neg105]

theorem c3_amended_witness : GetToolInfo ["G1 X0"] = none :=
  c3_amended.1 ["G1 X0"] (by decide)

/-- Claim C4 (code bug): on the program
`["(When using Fusion 360 for Personal Use", "G1 Z5", "G1 Z-5", "G1 Z0",
"G1 Z-5"]` no F word ever appears, yet the last line triggers the
feed-restore branch; the JS code evaluates `curF.toFixed(0)` with `curF`
undefined and throws a `TypeError` — modelled here by the `crashed` flag:
the rewrite terminates exceptionally, with the document reflecting the
edits made before the throw. -/
theorem c4_crash_on_missing_feed :
    OptimizeGCode 3 ["(When using Fusion 360 for Personal Use",
        "G1 Z5", "G1 Z-5", "G1 Z0", "G1 Z-5"]
      = { doc := ["(OPTIMIZED: When using Fusion 360 for Personal Use",
            "G1 Z5", "G1 Z-5", "G0 Z0", "G1 Z-5"],
          optimized := true, crashed := true } := by
  decide

/-- Claim C5 (code bug): on the program
`["(When using Fusion 360 for Personal Use", "G1 Z1", "G1 Z-1 F100",
"G1 Z2", "G1 Z0"]` the feed-restore insertion before the final line is
not compensated by an index adjustment, so the final original line
`G1 Z0` is examined a second time; on that second examination `lastZ`
equals its own Z and rule 2 fires, wrongly promoting it to `G0 Z0`. -/
theorem c5_line_reprocessed :
    OptimizeGCode 3 ["(When using Fusion 360 for Personal Use",
        "G1 Z1", "G1 Z-1 F100", "G1 Z2", "G1 Z0"]
      = { doc := ["(OPTIMIZED: When using Fusion 360 for Personal Use",
            "G1 Z1", "G1 Z-1 F100", "G0 Z2", "G1 F100", "G0 Z0"],
          optimized := true, crashed := false } := by
  decide

/-- Claim C6 (counterexample): with delay 3, the line `M30` — which does
not contain `M3` as a standalone token, only as a substring — DOES
receive a dwell line `G4 P3` after it, contradicting the claim that such
lines get no dwell. -/
theorem c6_counterexample :
    (OptimizeGCode 3 ["(When using Fusion 360 for Personal Use", "M30"]).doc
      = ["(OPTIMIZED: When using Fusion 360 for Personal Use",
         "M30", "G4 P3"] := by
  decide

/-- Claim C6 (amended): with `SPINDLE_START_DELAY = 3` the rewrite
inserts `G4 P3` immediately after a non-comment line if and only if the
line contains `"M3"` as a substring — so a line containing only `M30`
also receives a dwell; with `SPINDLE_START_DELAY = 0` the dwell branch is
never taken. -/
theorem c6_amended :
    (∀ (st : OState) (l : String) (rest : List String),
        isCommentLine l = false → hasM3sub l = true →
        runLines 3 st (l :: rest)
          = { doc := l :: dwellLine 3 :: (runLines 3 st rest).doc,
              optimized := (runLines 3 st rest).optimized,
              crashed := (runLines 3 st rest).crashed }) ∧
    (∀ (st : OState) (l : String) (rest : List String),
        isCommentLine l = false → hasM3sub l = false →
        runLines 3 st (l :: rest)
          = match normStep st l with
            | none => { doc := l :: rest, optimized := st.optimized,
                        crashed := true }
            | some (ls, st2) =>
              { doc := ls ++ (runLines 3 st2 rest).doc,
                optimized := (runLines 3 st2 rest).optimized,
                crashed := (runLines 3 st2 rest).crashed }) ∧
    (∀ (st : OState) (l : String) (rest : List String),
        isCommentLine l = false →
        runLines 0 st (l :: rest)
          = match normStep st l with
            | none => { doc := l :: rest, optimized := st.optimized,
                        crashed := true }
            | some (ls, st2) =>
              { doc := ls ++ (runLines 0 st2 rest).doc,
                optimized := (runLines 0 st2 rest).optimized,
                crashed := (runLines 0 st2 rest).crashed }) ∧
    (OptimizeGCode 3 ["(When using Fusion 360 for Personal Use", "M30"]).doc
      = ["(OPTIMIZED: When using Fusion 360 for Personal Use",
         "M30", "G4 P3"] ∧
    (OptimizeGCode 0 ["(When using Fusion 360 for Personal Use", "M30"]).doc
      = ["(OPTIMIZED: When using Fusion 360 for Personal Use", "M30"] := by
  refine ⟨?_, ?_, ?_, by decide, by decide⟩
  · intro st l rest hc hm
    exact runLines_step_dwell 3 st l rest hc (by norm_num) hm
  · intro st l rest hc hm
    exact runLines_step_normal 3 st l rest hc (by simp [hm])
  · intro st l rest hc
    exact runLines_step_normal 0 st l rest hc (by simp)

theorem c6_amended_witness :
    runLines 3 initState ["M30"]
      = { doc := "M30" :: dwellLine 3 :: (runLines 3 initState []).doc,
          optimized := (runLines 3 initState []).optimized,
          crashed := (runLines 3 initState []).crashed } :=
  c6_amended.1 initState "M30" [] (by decide) (by decide)

/-- Claim C7 (counterexample): the text `Z1.2.3` matches the Z pattern
but `Number("1.2.3")` is `NaN`; the engine stores that `NaN` into `curZ`
instead of treating the malformed text as absent, so after the lines
`["Z5", "Z1.2.3"]` the tracked `curZ` is `NaN`, not the last
well-formed value `5` required by the claim. -/
theorem c7_counterexample :
    (List.foldl updateSticky initState ["Z5", "Z1.2.3"]).curZ
        = some JSVal.nan ∧
    lastSome (specValueOf parseZ) ["Z5", "Z1.2.3"] = some (JSVal.num 5) ∧
    some JSVal.nan ≠ some (JSVal.num 5) := by
  refine ⟨by decide, by decide, by decide⟩

/-- Claim C7 (amended): after processing a sequence of lines, the
tracked `curZ`, `curG` and `curF` each equal the value extracted by the
pattern match on the last line where the pattern matched (or the starting
value if it never matched); text that matches the numeric pattern but is
not a well-formed number is stored as `NaN`, overwriting the previous
value, rather than counting as absent. -/
theorem c7_amended (ls : List String) (s : OState) :
    (ls.foldl updateSticky s).curZ = ostick (lastSome parseZ ls) s.curZ ∧
    (ls.foldl updateSticky s).curG = ostick (lastSome parseG ls) s.curG ∧
    (ls.foldl updateSticky s).curF = ostick (lastSome parseF ls) s.curF :=
  foldSticky ls s

/-- Claim C8 (counterexample): marker recognition does NOT ignore leading
whitespace — a line whose first non-space character is `(` but which
starts with a space is not classified as a comment, and a line whose
trimmed text begins with `(T` but which starts with a space is not found
by the tool-metadata extractor. -/
theorem c8_counterexample :
    isCommentLine " (x" = false ∧ firstNonSpace " (x" = some '(' ∧
    isToolLine " (T1 Router ZMIN=-10.5)" = false ∧
    GetToolInfo [" (T1 Router ZMIN=-10.5)"] = none := by
  refine ⟨by decide, by decide, by decide, by decide⟩

/-- Claim C8 (amended): line-start markers are matched against the raw
line with no whitespace trimming: a line is classified as a comment
exactly when its first character is `(`, and the tool-metadata extractor
finds a line exactly when some line's first two characters are `(T`. -/
theorem c8_amended :
    (∀ l : String, isCommentLine l = true ↔ l.data.head? = some '(') ∧
    (∀ ls : List String,
      GetToolInfo ls = none ↔ ∀ l ∈ ls, l.data.take 2 ≠ ['(', 'T']) := by
  constructor
  · exact comment_head_iff
  · intro ls
    rw [getToolInfo_none_iff]
    constructor
    · intro h l hl htake
      have ht := (isToolLine_iff l).mpr htake
      rw [h l hl] at ht
      cases ht
    · intro h l hl
      cases ht : isToolLine l
      · rfl
      · exact absurd ((isToolLine_iff l).mp ht) (h l hl)

theorem c8_amended_witness :
    "(a".data.head? = some '(' ∧ GetToolInfo ["x"] = none :=
  ⟨(c8_amended.1 "(a").mp (by decide), (c8_amended.2 ["x"]).mpr (by decide)⟩

/-- Claim C9: when the configured spindle delay is zero, a non-comment
line containing `M3` is not skipped: the loop handles it exactly like any
other non-comment line (its G, Z and F words update the sticky state and
it is eligible for promotion and feed-restore), and on a concrete program
the `M3`-carrying line is itself promoted to `G0 Z2 M3`. -/
theorem c9_m3_not_skipped :
    (∀ (st : OState) (l : String) (rest : List String),
        hasM3sub l = true → isCommentLine l = false →
        runLines 0 st (l :: rest)
          = match normStep st l with
            | none => { doc := l :: rest, optimized := st.optimized,
                        crashed := true }
            | some (ls, st2) =>
              { doc := ls ++ (runLines 0 st2 rest).doc,
                optimized := (runLines 0 st2 rest).optimized,
                crashed := (runLines 0 st2 rest).crashed }) ∧
    (OptimizeGCode 0 ["(When using Fusion 360 for Personal Use",
        "G1 Z1", "G1 Z-1 F100", "G1 Z2 M3"]).doc
      = ["(OPTIMIZED: When using Fusion 360 for Personal Use",
         "G1 Z1", "G1 Z-1 F100", "G0 Z2 M3"] := by
  constructor
  · intro st l rest _ hc
    exact runLines_step_normal 0 st l rest hc (by simp)
  · decide

theorem c9_m3_not_skipped_witness :
    runLines 0 initState ["G1 Z2 M3"]
      = match normStep initState "G1 Z2 M3" with
        | none => { doc := ["G1 Z2 M3"], optimized := initState.optimized,
                    crashed := true }
        | some (ls, st2) =>
          { doc := ls ++ (runLines 0 st2 []).doc,
            optimized := (runLines 0 st2 []).optimized,
            crashed := (runLines 0 st2 []).crashed } :=
  c9_m3_not_skipped.1 initState "G1 Z2 M3" [] (by decide) (by decide)
